import Mathlib

/-!
# TrafficLight.cpp: message queue and traffic-light phase controller

A shallow embedding of `src/TrafficLight.cpp`.

* `MessageQueue T` is the `std::deque<T> _messages` guarded by `_mutex`; every
  function below is one critical section of the source (the code that runs
  while the `std::unique_lock` is held), so it is atomic with respect to the
  other threads.
* `_cond.wait(uLock)` releases the lock and suspends the caller.  The code
  after it (lines 24-27) runs once the wait has returned and the lock has been
  taken again; the source does not test `_messages.empty()` a second time.
* `front()` / `pop_front()` of an empty `std::deque` have no defined result;
  the embedding gives that case an outcome of its own.
-/

namespace TrafficSim

/-! ## MessageQueue -/

/-- The member `_messages` of `MessageQueue<T>`: front of the deque first. -/
structure MessageQueue (T : Type) where
  _messages : List T
deriving DecidableEq, Repr

/-- What a critical section of `MessageQueue<T>::receive` ends in. -/
inductive Received (T : Type) where
  /-- Line 27: `msg` is returned, the deque is left as `q`. -/
  | returned (msg : T) (q : MessageQueue T)
  /-- Line 21: the caller is suspended in `_cond.wait`, the deque is untouched. -/
  | waiting
  /-- Lines 24-25 ran on an empty deque. -/
  | emptyFront
deriving DecidableEq, Repr

namespace MessageQueue

variable {T : Type}

/-- A default-constructed queue. -/
def empty : MessageQueue T := ⟨[]⟩

/-- `MessageQueue<T>::send`, lines 37-43: `emplace_back` under the lock (the
`notify_one` that follows changes no data). -/
def send (q : MessageQueue T) (msg : T) : MessageQueue T :=
  ⟨q._messages ++ [msg]⟩

/-- Lines 24-27 of `receive`: `front()`, `pop_front()`, `return msg`. -/
def takeFront (q : MessageQueue T) : Received T :=
  match q._messages with
  | [] => Received.emptyFront
  | msg :: rest => Received.returned msg ⟨rest⟩

/-- `MessageQueue<T>::receive` from its call up to the first point where it
either returns or suspends: lines 16-22, then lines 24-27 when the `if` of
line 19 is not taken. -/
def receive (q : MessageQueue T) : Received T :=
  if q._messages.isEmpty then Received.waiting else q.takeFront

/-- The rest of `receive` after `_cond.wait` (line 21) has returned: control
falls out of the `if` to lines 24-27, with the deque as it is at that time. -/
def receiveAfterWait (q : MessageQueue T) : Received T :=
  q.takeFront

/-- Sending the items of `xs` one after the other. -/
def sendAll (q : MessageQueue T) (xs : List T) : MessageQueue T :=
  xs.foldl send q

/-- The next `n` calls of `receive` by one thread: the values returned, in call
order, and the queue left, or `none` as soon as one call does not return at
once (it waits, or meets an empty deque). -/
def receiveN : Nat → MessageQueue T → Option (List T × MessageQueue T)
  | 0, q => some ([], q)
  | n + 1, q =>
    match q.receive with
    | Received.returned msg q1 =>
      match receiveN n q1 with
      | some (msgs, q2) => some (msg :: msgs, q2)
      | none => none
    | _ => none

end MessageQueue

/-! ## The queue shared by several threads

One event is one critical section of one thread.  A thread suspended in
`_cond.wait` goes on when the wait returns: after a `notify_one`, or without
one (a condition variable may wake spuriously).  The model leaves the cause of
a wake-up open, so every wake-up the C++ runtime can produce is an event. -/

/-- The critical sections that touch a `MessageQueue<T>`. -/
inductive QEvent (T : Type) where
  /-- A producer runs `send(msg)`. -/
  | send (msg : T)
  /-- Thread `tid` calls `receive()`. -/
  | call (tid : Nat)
  /-- The `_cond.wait` of thread `tid` returns. -/
  | wake (tid : Nat)
deriving DecidableEq

/-- The queue, the threads suspended in `_cond.wait`, and two histories kept
for the statements only: the values passed to `send` and the values returned
by `receive` (with the receiving thread), both oldest first. -/
structure QSystem (T : Type) where
  queue : MessageQueue T
  suspended : List Nat
  sent : List T
  delivered : List (Nat × T)
deriving DecidableEq

/-- Where a run of events ends. -/
inductive Outcome (σ : Type) where
  /-- Every event ran; the system is in state `s`. -/
  | state (s : σ)
  /-- Some thread ran lines 24-25 of `receive` on an empty deque. -/
  | emptyFront
  /-- An event was scheduled for a thread that cannot run it. -/
  | disabled
deriving DecidableEq

namespace QSystem

variable {T : Type}

/-- A fresh queue, nobody waiting. -/
def init : QSystem T := ⟨MessageQueue.empty, [], [], []⟩

/-- One critical section. -/
def step (s : QSystem T) : QEvent T → Outcome (QSystem T)
  | QEvent.send msg =>
    Outcome.state { s with queue := s.queue.send msg, sent := s.sent ++ [msg] }
  | QEvent.call tid =>
    if tid ∈ s.suspended then Outcome.disabled
    else
      match s.queue.receive with
      | Received.returned msg q =>
        Outcome.state { s with queue := q, delivered := s.delivered ++ [(tid, msg)] }
      | Received.waiting => Outcome.state { s with suspended := tid :: s.suspended }
      | Received.emptyFront => Outcome.emptyFront
  | QEvent.wake tid =>
    if tid ∈ s.suspended then
      match s.queue.receiveAfterWait with
      | Received.returned msg q =>
        Outcome.state { s with queue := q, suspended := s.suspended.erase tid,
                               delivered := s.delivered ++ [(tid, msg)] }
      | Received.waiting => Outcome.disabled
      | Received.emptyFront => Outcome.emptyFront
    else Outcome.disabled

/-- A finite interleaving, run from `s`. -/
def run (s : QSystem T) : List (QEvent T) → Outcome (QSystem T)
  | [] => Outcome.state s
  | e :: es =>
    match s.step e with
    | Outcome.state s1 => run s1 es
    | Outcome.emptyFront => Outcome.emptyFront
    | Outcome.disabled => Outcome.disabled

end QSystem

/-! ## TrafficLight -/

/-- The enumeration `TrafficLightPhase`. -/
inductive TrafficLightPhase where
  | red
  | green
deriving DecidableEq, Repr

/-- The members `_currentPhase` and `_queue` of `TrafficLight`. -/
structure TrafficLight where
  _currentPhase : TrafficLightPhase
  _queue : MessageQueue TrafficLightPhase
deriving DecidableEq

/-- What a call of `waitForGreen` has come to. -/
inductive WaitResult where
  /-- Line 67: the call returned, the light is left as `tl`. -/
  | returned (tl : TrafficLight)
  /-- The call is suspended inside `_queue.receive()` (line 63). -/
  | blocked (tl : TrafficLight)
  /-- A `receive` of the call ran lines 24-25 on an empty deque. -/
  | emptyFront
  /-- The iterations looked at are used up, the loop of line 61 goes on. -/
  | looping (tl : TrafficLight)
deriving DecidableEq

/-- The right-hand side of line 116:
`(_currentPhase == red) ? green : red`. -/
def togglePhase (p : TrafficLightPhase) : TrafficLightPhase :=
  if p = TrafficLightPhase.red then TrafficLightPhase.green else TrafficLightPhase.red

namespace TrafficLight

open TrafficLightPhase

/-- `TrafficLight::TrafficLight()`, lines 50-53; `_queue` is default-constructed. -/
def new : TrafficLight := ⟨red, MessageQueue.empty⟩

/-- `TrafficLight::getCurrentPhase`, lines 72-75. -/
def getCurrentPhase (tl : TrafficLight) : TrafficLightPhase := tl._currentPhase

/-- Line 116: the assignment to `_currentPhase`. -/
def assignToggled (tl : TrafficLight) : TrafficLight :=
  { tl with _currentPhase := togglePhase tl._currentPhase }

/-- Line 124: `_queue.send(std::move(_currentPhase))`.  Moving from an
enumeration copies it, so `_currentPhase` keeps its value. -/
def sendCurrentPhase (tl : TrafficLight) : TrafficLight :=
  { tl with _queue := tl._queue.send tl._currentPhase }

/-- The body of the `if` of line 113 as far as the light goes: line 116, then
line 124. -/
def toggleStep (tl : TrafficLight) : TrafficLight :=
  tl.assignToggled.sendCurrentPhase

/-- The light after `k` toggles of the cycling task. -/
def toggles : Nat → TrafficLight → TrafficLight
  | 0, tl => tl
  | k + 1, tl => toggles k tl.toggleStep

/-- `TrafficLight::waitForGreen`, lines 61-69, run by itself for at most `fuel`
iterations of the `while (true)`. -/
def waitForGreen : Nat → TrafficLight → WaitResult
  | 0, tl => WaitResult.looping tl
  | fuel + 1, tl =>
    match tl._queue.receive with
    | Received.returned oldestReceivedPhase q =>
      if oldestReceivedPhase = green then WaitResult.returned { tl with _queue := q }
      else waitForGreen fuel { tl with _queue := q }
    | Received.waiting => WaitResult.blocked tl
    | Received.emptyFront => WaitResult.emptyFront

/-- `waitForGreen` with the cycling task running beside it: `n :: sched` lets
the cycling task toggle `n` times before the caller's next `receive` gets the
lock.  A `receive` that found the deque empty stays in `_cond.wait` until a
`send` of the cycling task has notified it, which is the next iteration with a
non-zero number of toggles. -/
def waitForGreenDuring : List Nat → TrafficLight → WaitResult
  | [], tl => WaitResult.looping tl
  | n :: sched, tl =>
    match (toggles n tl)._queue.receive with
    | Received.returned oldestReceivedPhase q =>
      if oldestReceivedPhase = green then
        WaitResult.returned { toggles n tl with _queue := q }
      else waitForGreenDuring sched { toggles n tl with _queue := q }
    | Received.waiting => waitForGreenDuring sched (toggles n tl)
    | Received.emptyFront => WaitResult.emptyFront

end TrafficLight

/-- What the cycling task and the consumers do to a light. -/
inductive LightStep where
  /-- The cycling task runs lines 116-124. -/
  | toggle
  /-- Some thread calls `_queue.receive()`. -/
  | receive
deriving DecidableEq

namespace TrafficLight

/-- One step.  A `receive` on an empty queue suspends its caller and leaves the
light as it is. -/
def step (tl : TrafficLight) : LightStep → TrafficLight
  | LightStep.toggle => tl.toggleStep
  | LightStep.receive =>
    match tl._queue.receive with
    | Received.returned _ q => { tl with _queue := q }
    | Received.waiting => tl
    | Received.emptyFront => tl

/-- The light after a sequence of steps. -/
def run (tl : TrafficLight) (steps : List LightStep) : TrafficLight :=
  steps.foldl step tl

end TrafficLight

/-- Any two neighbours differ. -/
def Alternating : List TrafficLightPhase → Prop
  | [] => True
  | [_] => True
  | a :: b :: rest => a ≠ b ∧ Alternating (b :: rest)

/-- `Alternating` can be computed. -/
def Alternating.dec : (l : List TrafficLightPhase) → Decidable (Alternating l)
  | [] => isTrue trivial
  | [_] => isTrue trivial
  | a :: b :: rest =>
    have := Alternating.dec (b :: rest)
    inferInstanceAs (Decidable (a ≠ b ∧ Alternating (b :: rest)))

instance (l : List TrafficLightPhase) : Decidable (Alternating l) := Alternating.dec l

/-! ## The timed loop of `cycleThroughPhases`

Time points are counted in ticks of `std::chrono::system_clock`, of which
`ticksPerMs` make one millisecond.  `timeToWait` is a `double`; every `double`
is a rational number and the comparison of two of them is exact, so `ℚ` holds
it.  The clock readings and the canonical samples of the random generator are
what the surroundings give to the loop. -/

/-- `std::uniform_real_distribution<> distr(4000.0, 6000.0)` of line 94, as a
function of the canonical sample `u` of the generator (`0 ≤ u`, `u ≤ 1`):
`a + u * (b - a)`. -/
def distr (u : ℚ) : ℚ := 4000 + u * (6000 - 4000)

/-- The locals `timeToWait` and `lastUpdate` of `cycleThroughPhases`, and the
light. -/
structure CycleState where
  light : TrafficLight
  timeToWait : ℚ
  lastUpdate : Int

/-- What one iteration of the loop of line 104 reads: the clock at line 110,
the canonical sample behind the draw of line 128, the clock at line 131.  The
last two are read only when the iteration toggles. -/
structure Poll where
  currentTime : Int
  sample : ℚ
  resetTime : Int

/-- Line 111: the whole milliseconds between `lastUpdate` and `currentTime`
(`duration_cast` truncates towards zero). -/
def timeSinceLastUpdate (ticksPerMs : Int) (s : CycleState) (p : Poll) : Int :=
  (p.currentTime - s.lastUpdate).tdiv ticksPerMs

/-- Lines 93-102: the first draw and the first clock reading. -/
def cycleStart (tl : TrafficLight) (sample : ℚ) (now : Int) : CycleState :=
  ⟨tl, distr sample, now⟩

/-- One iteration of the loop, lines 107-132. -/
def cycleIteration (ticksPerMs : Int) (s : CycleState) (p : Poll) : CycleState :=
  if ((timeSinceLastUpdate ticksPerMs s p : Int) : ℚ) ≥ s.timeToWait then
    { light := s.light.toggleStep, timeToWait := distr p.sample, lastUpdate := p.resetTime }
  else s

/-- The loop of `cycleThroughPhases` over the iterations `polls`. -/
def cycleThroughPhases (ticksPerMs : Int) (s : CycleState) (polls : List Poll) : CycleState :=
  polls.foldl (cycleIteration ticksPerMs) s

/-- For every iteration of the loop that toggles, the ticks that had gone by
since `lastUpdate` when it read the clock (line 110). -/
def firings (ticksPerMs : Int) : CycleState → List Poll → List Int
  | _, [] => []
  | s, p :: ps =>
    if ((timeSinceLastUpdate ticksPerMs s p : Int) : ℚ) ≥ s.timeToWait then
      (p.currentTime - s.lastUpdate) :: firings ticksPerMs (cycleIteration ticksPerMs s p) ps
    else firings ticksPerMs (cycleIteration ticksPerMs s p) ps

/-- The clock is read at most 5 ms after the reading of the iteration before
(`base`), and the reading of line 131 is not before that of line 110. -/
def Paced (ticksPerMs : Int) : Int → List Poll → Prop
  | _, [] => True
  | base, p :: ps =>
    p.currentTime ≤ base + 5 * ticksPerMs ∧ p.currentTime ≤ p.resetTime ∧
      Paced ticksPerMs p.currentTime ps

/-- `Paced` can be computed. -/
def Paced.dec (ticksPerMs : Int) : (base : Int) → (polls : List Poll) →
    Decidable (Paced ticksPerMs base polls)
  | _, [] => isTrue trivial
  | base, p :: ps =>
    have := Paced.dec ticksPerMs p.currentTime ps
    inferInstanceAs (Decidable (p.currentTime ≤ base + 5 * ticksPerMs ∧
      p.currentTime ≤ p.resetTime ∧ Paced ticksPerMs p.currentTime ps))

instance (ticksPerMs base : Int) (polls : List Poll) :
    Decidable (Paced ticksPerMs base polls) := Paced.dec ticksPerMs base polls

/-- Every canonical sample of the polls lies in the unit interval. -/
def SamplesCanonical (polls : List Poll) : Prop :=
  ∀ p ∈ polls, 0 ≤ p.sample ∧ p.sample ≤ 1

instance (polls : List Poll) : Decidable (SamplesCanonical polls) :=
  inferInstanceAs (Decidable (∀ p ∈ polls, 0 ≤ p.sample ∧ p.sample ≤ 1))

/-! ## The invariant of the light's queue -/

namespace TrafficLight

open TrafficLightPhase

end TrafficLight

/-- What the timed loop keeps true between iterations, `base` being the last
clock reading of line 110: the duration lies in the range of the
distribution, and at `base` less than 6000 ms had gone by. -/
def CycleInv (ticksPerMs : Int) (base : Int) (s : CycleState) : Prop :=
  4000 ≤ s.timeToWait ∧ s.timeToWait ≤ 6000 ∧ base - s.lastUpdate < 6000 * ticksPerMs

/-- Polls every 5 ticks after `t`, the reset reading taken at the poll time. -/
def pollsEvery5 : Int → Nat → List Poll
  | _, 0 => []
  | t, n + 1 => ⟨t + 5, 1 / 2, t + 5⟩ :: pollsEvery5 (t + 5) n

/-! ## Lemmas on the queue -/

namespace MessageQueue

variable {T : Type}

theorem sendAll_messages (q : MessageQueue T) (xs : List T) :
    (q.sendAll xs)._messages = q._messages ++ xs := by
  induction xs generalizing q with
  | nil => simp [sendAll]
  | cons x xs ih =>
    have h := ih (q.send x)
    simp only [sendAll, List.foldl_cons] at h ⊢
    rw [h]
    simp [send]

theorem receive_cons (x : T) (xs : List T) :
    (MessageQueue.mk (x :: xs)).receive = Received.returned x ⟨xs⟩ := by
  simp [receive, takeFront]

theorem receive_nil : (MessageQueue.mk ([] : List T)).receive = Received.waiting := by
  simp [receive]

theorem receiveN_all (xs : List T) :
    receiveN xs.length (MessageQueue.mk xs) = some (xs, ⟨[]⟩) := by
  induction xs with
  | nil => rfl
  | cons x xs ih => simp [receiveN, receive_cons, ih]

end MessageQueue

/-! ## Lemmas on the shared queue -/

namespace QSystem

variable {T : Type}

end QSystem

/-! ## Claims on the queue -/

/-- C1 (FIFO order): after the items of `xs` were sent to an empty queue, the
next `xs.length` calls of `receive` all return at once (none waits), they
return the items of `xs` in the order sent, and they leave the queue empty. -/
theorem fifo_order {T : Type} (xs : List T) :
    MessageQueue.receiveN xs.length ((MessageQueue.empty : MessageQueue T).sendAll xs)
      = some (xs, MessageQueue.empty) := by
  have h : (MessageQueue.empty : MessageQueue T).sendAll xs = ⟨xs⟩ := by
    have := MessageQueue.sendAll_messages (MessageQueue.empty : MessageQueue T) xs
    cases hq : (MessageQueue.empty : MessageQueue T).sendAll xs with
    | mk ms =>
      rw [hq] at this
      simp [MessageQueue.empty] at this
      simp [this]
  rw [h]
  exact MessageQueue.receiveN_all xs

/-- C2 (spurious-wake-up guard), evaluated on the code: `receive` does not test
emptiness again after `_cond.wait` has returned.  A wait that returns with no
`send` having happened (first trace), and a notified wait that gets the lock
after another consumer has taken the item (second trace), both run
`front()`/`pop_front()` on the empty deque. -/
theorem receive_after_wake_reaches_empty_front :
    (QSystem.init : QSystem TrafficLightPhase).run [QEvent.call 0, QEvent.wake 0]
      = Outcome.emptyFront ∧
    (QSystem.init : QSystem TrafficLightPhase).run
      [QEvent.call 0, QEvent.send TrafficLightPhase.green, QEvent.call 1, QEvent.wake 0]
      = Outcome.emptyFront ∧
    (MessageQueue.empty : MessageQueue TrafficLightPhase).receiveAfterWait
      = Received.emptyFront := by
  refine ⟨by decide, by decide, rfl⟩

namespace TrafficLight

open TrafficLightPhase

theorem toggles_succ_last (k : Nat) (tl : TrafficLight) :
    toggles (k + 1) tl = (toggles k tl).toggleStep := by
  induction k generalizing tl with
  | zero => rfl
  | succ k ih =>
    show toggles (k + 1) tl.toggleStep = _
    rw [ih tl.toggleStep]
    rfl

theorem toggles_phase (k : Nat) (tl : TrafficLight) :
    (toggles k tl)._currentPhase
      = if k % 2 = 0 then tl._currentPhase else togglePhase tl._currentPhase := by
  induction k with
  | zero => rfl
  | succ k ih =>
    rw [toggles_succ_last]
    simp only [toggleStep, sendCurrentPhase, assignToggled]
    rw [ih]
    rcases Nat.mod_two_eq_zero_or_one k with h | h
    · have h1 : (k + 1) % 2 = 1 := by omega
      simp [h, h1]
    · have h1 : (k + 1) % 2 = 0 := by omega
      simp [h, h1]
      cases tl._currentPhase <;> rfl

/-- The state of a light whose queue holds only red values, after
`waitForGreen` has looked at all of them. -/
theorem waitForGreen_no_green (p : TrafficLightPhase) (pre : List TrafficLightPhase)
    (hpre : green ∉ pre) (fuel : Nat) (hfuel : pre.length < fuel) :
    waitForGreen fuel ⟨p, ⟨pre⟩⟩ = WaitResult.blocked ⟨p, ⟨[]⟩⟩ := by
  induction pre generalizing fuel with
  | nil =>
    cases fuel with
    | zero => simp at hfuel
    | succ f => simp [waitForGreen, MessageQueue.receive]
  | cons a pre ih =>
    cases fuel with
    | zero => simp at hfuel
    | succ f =>
      have ha : a = red := by
        cases a
        · rfl
        · simp at hpre
      have hpre1 : green ∉ pre := fun h => hpre (List.mem_cons_of_mem _ h)
      have hf : pre.length < f := by simpa using hfuel
      subst ha
      simp [waitForGreen, MessageQueue.receive, MessageQueue.takeFront]
      exact ih hpre1 f hf

theorem waitForGreen_first_green (p : TrafficLightPhase) (pre suf : List TrafficLightPhase)
    (hpre : green ∉ pre) (fuel : Nat) (hfuel : pre.length < fuel) :
    waitForGreen fuel ⟨p, ⟨pre ++ green :: suf⟩⟩ = WaitResult.returned ⟨p, ⟨suf⟩⟩ := by
  induction pre generalizing fuel with
  | nil =>
    cases fuel with
    | zero => simp at hfuel
    | succ f => simp [waitForGreen, MessageQueue.receive, MessageQueue.takeFront]
  | cons a pre ih =>
    cases fuel with
    | zero => simp at hfuel
    | succ f =>
      have ha : a = red := by
        cases a
        · rfl
        · simp at hpre
      have hpre1 : green ∉ pre := fun h => hpre (List.mem_cons_of_mem _ h)
      have hf : pre.length < f := by simpa using hfuel
      subst ha
      simp [waitForGreen, MessageQueue.receive, MessageQueue.takeFront]
      exact ih hpre1 f hf

/-- With as many iterations as the red values before the first green, the loop
has not yet returned: it is about to receive the green. -/
theorem waitForGreen_short (p : TrafficLightPhase) (pre suf : List TrafficLightPhase)
    (hpre : green ∉ pre) :
    waitForGreen pre.length ⟨p, ⟨pre ++ green :: suf⟩⟩
      = WaitResult.looping ⟨p, ⟨green :: suf⟩⟩ := by
  induction pre with
  | nil => simp [waitForGreen]
  | cons a pre ih =>
    have ha : a = red := by
      cases a
      · rfl
      · simp at hpre
    have hpre1 : green ∉ pre := fun h => hpre (List.mem_cons_of_mem _ h)
    subst ha
    simp [waitForGreen, MessageQueue.receive, MessageQueue.takeFront]
    exact ih hpre1

end TrafficLight

/-! ## Lemmas on the invariant of the light's queue -/

namespace TrafficLight

open TrafficLightPhase

theorem waitForGreen_returned_during (fuel : Nat) {tl tl1 : TrafficLight}
    (hr : waitForGreen fuel tl = WaitResult.returned tl1) :
    waitForGreenDuring (List.replicate fuel 0) tl = WaitResult.returned tl1 := by
  induction fuel generalizing tl with
  | zero => simp [waitForGreen] at hr
  | succ f ih =>
    simp only [waitForGreen] at hr
    simp only [List.replicate_succ, waitForGreenDuring, toggles]
    split at hr
    · next msg q hq =>
      by_cases hg : msg = green
      · simpa [hg] using hr
      · simp only [hg, if_false] at hr ⊢
        exact ih hr
    · cases hr
    · cases hr

end TrafficLight

/-! ## Claims on the light -/

/-- C5 (strict alternation): a light is constructed red, and after `k` toggles
of the cycling task `getCurrentPhase` gives red when `k` is even and green when
`k` is odd. -/
theorem strict_alternation (k : Nat) :
    TrafficLight.new.getCurrentPhase = TrafficLightPhase.red ∧
    (TrafficLight.toggles k TrafficLight.new).getCurrentPhase
      = if k % 2 = 0 then TrafficLightPhase.red else TrafficLightPhase.green := by
  refine ⟨rfl, ?_⟩
  have h := TrafficLight.toggles_phase k TrafficLight.new
  simpa [TrafficLight.getCurrentPhase, TrafficLight.new, togglePhase] using h

/-- C6 (write before enqueue): from phase `p` and queue content `q`, one toggle
of `cycleThroughPhases` first assigns `togglePhase p` to the current phase
(queue still `q`), then appends that value to the tail of the queue; the state
after the step is `(togglePhase p, q ++ [togglePhase p])` and the current
phase read after the enqueue is still `togglePhase p`. -/
theorem write_before_enqueue (p : TrafficLightPhase) (q : List TrafficLightPhase) :
    (TrafficLight.mk p ⟨q⟩).assignToggled = ⟨togglePhase p, ⟨q⟩⟩ ∧
    (TrafficLight.mk (togglePhase p) ⟨q⟩).sendCurrentPhase
      = ⟨togglePhase p, ⟨q ++ [togglePhase p]⟩⟩ ∧
    (TrafficLight.mk p ⟨q⟩).toggleStep = ⟨togglePhase p, ⟨q ++ [togglePhase p]⟩⟩ ∧
    (TrafficLight.mk p ⟨q⟩).toggleStep.getCurrentPhase = togglePhase p :=
  ⟨rfl, rfl, rfl, rfl⟩

/-- C7 (waitForGreen drains up to the first green): when the queue holds
`pre ++ green :: suf` with no green in `pre`, `waitForGreen` returns, after
exactly `pre.length + 1` receives, with `suf` left in the queue (after
`pre.length` receives it is still looping, the green at the front); when the
queue holds only the green-free `pre`, it takes every item and then stays
suspended in `receive` on the empty queue. -/
theorem waitForGreen_drains_to_first_green (p : TrafficLightPhase)
    (pre suf : List TrafficLightPhase) (fuel : Nat)
    (hpre : TrafficLightPhase.green ∉ pre) (hfuel : pre.length < fuel) :
    TrafficLight.waitForGreen fuel ⟨p, ⟨pre ++ TrafficLightPhase.green :: suf⟩⟩
      = WaitResult.returned ⟨p, ⟨suf⟩⟩ ∧
    TrafficLight.waitForGreen pre.length ⟨p, ⟨pre ++ TrafficLightPhase.green :: suf⟩⟩
      = WaitResult.looping ⟨p, ⟨TrafficLightPhase.green :: suf⟩⟩ ∧
    TrafficLight.waitForGreen fuel ⟨p, ⟨pre⟩⟩ = WaitResult.blocked ⟨p, ⟨[]⟩⟩ :=
  ⟨TrafficLight.waitForGreen_first_green p pre suf hpre fuel hfuel,
   TrafficLight.waitForGreen_short p pre suf hpre,
   TrafficLight.waitForGreen_no_green p pre hpre fuel hfuel⟩


/-- Witness of C7: two reds, the first green, then a red and a green. -/
theorem waitForGreen_drains_to_first_green_witness :
    TrafficLightPhase.green ∉ [TrafficLightPhase.red, TrafficLightPhase.red] ∧
    TrafficLight.waitForGreen 3 ⟨TrafficLightPhase.red,
        ⟨[TrafficLightPhase.red, TrafficLightPhase.red] ++ TrafficLightPhase.green ::
          [TrafficLightPhase.red, TrafficLightPhase.green]⟩⟩
      = WaitResult.returned ⟨TrafficLightPhase.red,
          ⟨[TrafficLightPhase.red, TrafficLightPhase.green]⟩⟩ ∧
    TrafficLight.waitForGreen 3 ⟨TrafficLightPhase.red,
        ⟨[TrafficLightPhase.red, TrafficLightPhase.red]⟩⟩
      = WaitResult.blocked ⟨TrafficLightPhase.red, ⟨[]⟩⟩ :=
  have h := waitForGreen_drains_to_first_green TrafficLightPhase.red
    [TrafficLightPhase.red, TrafficLightPhase.red]
    [TrafficLightPhase.red, TrafficLightPhase.green] 3 (by decide) (by decide)
  ⟨by decide, h.1, h.2.2⟩

theorem distr_bounds (u : ℚ) (h0 : 0 ≤ u) (h1 : u ≤ 1) :
    4000 ≤ distr u ∧ distr u ≤ 6000 := by
  unfold distr
  constructor <;> nlinarith

theorem tdiv_nonpos_of_neg (x c : Int) (hc : 0 < c) (hx : x < 0) : x.tdiv c ≤ 0 := by
  have h : x = -(-x) := by omega
  rw [h, Int.neg_tdiv]
  have := Int.tdiv_nonneg (a := -x) (b := c) (by omega) (by omega)
  omega

/-- An iteration that toggles has seen at least 4000 ms go by. -/
theorem fired_lower (c x : Int) (d : ℚ) (hc : 0 < c) (hd : 4000 ≤ d)
    (hf : ((x.tdiv c : Int) : ℚ) ≥ d) : 4000 * c ≤ x := by
  have h1 : ((4000 : Int) : ℚ) ≤ ((x.tdiv c : Int) : ℚ) := by
    push_cast
    linarith
  have h2 : (4000 : Int) ≤ x.tdiv c := by exact_mod_cast h1
  by_cases hx : x < 0
  · have := tdiv_nonpos_of_neg x c hc hx
    omega
  · rw [Int.tdiv_eq_ediv (by omega) (by omega)] at h2
    exact (Int.le_ediv_iff_mul_le hc).mp h2

/-- An iteration that does not toggle has seen less than 6000 ms go by. -/
theorem not_fired_upper (c x : Int) (d : ℚ) (hc : 0 < c) (hd : d ≤ 6000)
    (hf : ¬ ((x.tdiv c : Int) : ℚ) ≥ d) : x < 6000 * c := by
  have h1 : ((x.tdiv c : Int) : ℚ) < ((6000 : Int) : ℚ) := by
    push_cast
    push_neg at hf
    linarith
  have h2 : x.tdiv c < (6000 : Int) := by exact_mod_cast h1
  by_cases hx : x < 0
  · have : 0 < 6000 * c := by positivity
    omega
  · rw [Int.tdiv_eq_ediv (by omega) (by omega)] at h2
    exact (Int.ediv_lt_iff_lt_mul hc).mp h2

theorem firings_bounds (c : Int) (hc : 0 < c) (polls : List Poll) (base : Int)
    (s : CycleState) (hinv : CycleInv c base s) (hs : SamplesCanonical polls)
    (hp : Paced c base polls) :
    ∀ e ∈ firings c s polls, 4000 * c ≤ e ∧ e ≤ 6005 * c := by
  induction polls generalizing base s with
  | nil =>
    intro e he
    simp [firings] at he
  | cons p ps ih =>
    obtain ⟨hd1, hd2, hb⟩ := hinv
    obtain ⟨hp1, hp2, hp3⟩ := hp
    have hs1 : SamplesCanonical ps := fun q hq => hs q (List.mem_cons_of_mem _ hq)
    have hu := hs p (List.mem_cons_self _ _)
    have hdu := distr_bounds p.sample hu.1 hu.2
    intro e he
    by_cases hf : ((timeSinceLastUpdate c s p : Int) : ℚ) ≥ s.timeToWait
    · have hlow := fired_lower c (p.currentTime - s.lastUpdate) s.timeToWait hc hd1 hf
      have hinv1 : CycleInv c p.currentTime (cycleIteration c s p) := by
        simp only [cycleIteration, if_pos hf]
        refine ⟨hdu.1, hdu.2, ?_⟩
        show p.currentTime - p.resetTime < 6000 * c
        have : 0 < 6000 * c := by positivity
        omega
      simp only [firings, if_pos hf, List.mem_cons] at he
      rcases he with he | he
      · subst he
        refine ⟨hlow, ?_⟩
        have : p.currentTime - s.lastUpdate < 6005 * c := by linarith
        omega
      · exact ih p.currentTime _ hinv1 hs1 hp3 e he
    · have hup := not_fired_upper c (p.currentTime - s.lastUpdate) s.timeToWait hc hd2 hf
      have hinv1 : CycleInv c p.currentTime (cycleIteration c s p) := by
        simp only [cycleIteration, if_neg hf]
        exact ⟨hd1, hd2, hup⟩
      simp only [firings, if_neg hf] at he
      exact ih p.currentTime _ hinv1 hs1 hp3 e he

/-- The log of `firings` counts the toggles of the loop. -/
theorem cycle_light (c : Int) (polls : List Poll) (s : CycleState) :
    (cycleThroughPhases c s polls).light
      = TrafficLight.toggles (firings c s polls).length s.light := by
  induction polls generalizing s with
  | nil => rfl
  | cons p ps ih =>
    have h := ih (cycleIteration c s p)
    simp only [cycleThroughPhases, List.foldl_cons] at h ⊢
    rw [h]
    by_cases hf : ((timeSinceLastUpdate c s p : Int) : ℚ) ≥ s.timeToWait
    · simp only [firings, if_pos hf, cycleIteration, List.length_cons, TrafficLight.toggles]
    · simp only [firings, if_neg hf, cycleIteration]

theorem paced_pollsEvery5 (t : Int) (n : Nat) : Paced 1 t (pollsEvery5 t n) := by
  induction n generalizing t with
  | zero => trivial
  | succ n ih => exact ⟨by simp, le_refl _, ih (t + 5)⟩

theorem samples_pollsEvery5 (t : Int) (n : Nat) : SamplesCanonical (pollsEvery5 t n) := by
  induction n generalizing t with
  | zero =>
    intro p hp
    simp [pollsEvery5] at hp
  | succ n ih =>
    intro p hp
    simp only [pollsEvery5, List.mem_cons] at hp
    rcases hp with hp | hp
    · subst hp
      norm_num
    · exact ih (t + 5) p hp

theorem pollsEvery5_add (t : Int) (m n : Nat) :
    pollsEvery5 t (m + n) = pollsEvery5 t m ++ pollsEvery5 (t + 5 * m) n := by
  induction m generalizing t with
  | zero => simp [pollsEvery5]
  | succ m ih =>
    have h : m + 1 + n = (m + n) + 1 := by omega
    rw [h]
    simp only [pollsEvery5, List.cons_append]
    rw [ih (t + 5)]
    congr 2
    push_cast
    ring_nf

/-- While less than 4000 ms have gone by, the polls change nothing. -/
theorem firings_quiet (n : Nat) (t : Int) (s : CycleState) (ps : List Poll)
    (hd : s.timeToWait = 4000) (hl : s.lastUpdate = 0) (ht : t + 5 * n < 4000) :
    firings 1 s (pollsEvery5 t n ++ ps) = firings 1 s ps := by
  induction n generalizing t with
  | zero => simp [pollsEvery5]
  | succ n ih =>
    have hq : ¬ ((timeSinceLastUpdate 1 s ⟨t + 5, 1 / 2, t + 5⟩ : Int) : ℚ) ≥ s.timeToWait := by
      rw [hd]
      simp only [timeSinceLastUpdate, hl, Int.tdiv_one, sub_zero]
      have h1 : t + 5 < 4000 := by push_cast at ht; omega
      have h2 : ((t + 5 : Int) : ℚ) < ((4000 : Int) : ℚ) := by exact_mod_cast h1
      push_cast at h2 ⊢
      linarith
    simp only [pollsEvery5, List.cons_append, firings, if_neg hq, cycleIteration]
    apply ih
    push_cast at ht
    omega

theorem firings_pollsEvery5_801 :
    firings 1 (cycleStart TrafficLight.new 0 0) (pollsEvery5 0 801) = [4000] := by
  have h := pollsEvery5_add 0 799 2
  rw [show 799 + 2 = 801 from rfl] at h
  rw [h, firings_quiet 799 0 _ _ (by norm_num [cycleStart, distr]) rfl (by norm_num)]
  norm_num [pollsEvery5, firings, cycleIteration, cycleStart, distr, timeSinceLastUpdate,
    Int.tdiv_one]

/-- C9 (randomized interval bound): every duration drawn by `distr` from a
canonical sample lies in [4000, 6000]; an iteration of the loop toggles, takes
the new duration and resets `lastUpdate` when the whole milliseconds since
`lastUpdate` are at least `timeToWait`, and changes nothing otherwise; hence,
when each poll reads the clock at most 5 ms after the poll before it, every
toggle fires with between 4000 and 6005 ms gone by since `lastUpdate`. -/
theorem randomized_interval_bound (ticksPerMs : Int) (tl : TrafficLight) (sample0 : ℚ)
    (start : Int) (polls : List Poll) (hticks : 0 < ticksPerMs)
    (h0 : 0 ≤ sample0 ∧ sample0 ≤ 1) (hs : SamplesCanonical polls)
    (hp : Paced ticksPerMs start polls) :
    (4000 ≤ distr sample0 ∧ distr sample0 ≤ 6000) ∧
    (∀ p ∈ polls, 4000 ≤ distr p.sample ∧ distr p.sample ≤ 6000) ∧
    (∀ (s : CycleState) (p : Poll),
      (((timeSinceLastUpdate ticksPerMs s p : Int) : ℚ) ≥ s.timeToWait →
        cycleIteration ticksPerMs s p
          = ⟨s.light.toggleStep, distr p.sample, p.resetTime⟩) ∧
      (((timeSinceLastUpdate ticksPerMs s p : Int) : ℚ) < s.timeToWait →
        cycleIteration ticksPerMs s p = s)) ∧
    (∀ e ∈ firings ticksPerMs (cycleStart tl sample0 start) polls,
      4000 * ticksPerMs ≤ e ∧ e ≤ 6005 * ticksPerMs) ∧
    (cycleThroughPhases ticksPerMs (cycleStart tl sample0 start) polls).light
      = TrafficLight.toggles
          (firings ticksPerMs (cycleStart tl sample0 start) polls).length tl := by
  have hd0 := distr_bounds sample0 h0.1 h0.2
  refine ⟨hd0, ?_, ?_, ?_, ?_⟩
  · intro p hp1
    have := hs p hp1
    exact distr_bounds p.sample this.1 this.2
  · intro s p
    constructor
    · intro h
      simp [cycleIteration, h]
    · intro h
      have : ¬ ((timeSinceLastUpdate ticksPerMs s p : Int) : ℚ) ≥ s.timeToWait := not_le.mpr h
      simp only [cycleIteration, if_neg this]
  · apply firings_bounds ticksPerMs hticks polls start _ _ hs hp
    refine ⟨hd0.1, hd0.2, ?_⟩
    show start - start < 6000 * ticksPerMs
    have : 0 < 6000 * ticksPerMs := by positivity
    omega
  · exact cycle_light ticksPerMs polls _

/-- Witness of C9: a clock in milliseconds, a first duration of 4000 ms, and 801
polls 5 ms apart; the light toggles once, with 4000 ms gone by. -/
theorem randomized_interval_bound_witness :
    Paced 1 0 (pollsEvery5 0 801) ∧ SamplesCanonical (pollsEvery5 0 801) ∧
    firings 1 (cycleStart TrafficLight.new 0 0) (pollsEvery5 0 801) = [4000] ∧
    (∀ e ∈ firings 1 (cycleStart TrafficLight.new 0 0) (pollsEvery5 0 801),
      4000 * (1 : Int) ≤ e ∧ e ≤ 6005 * 1) :=
  ⟨paced_pollsEvery5 0 801, samples_pollsEvery5 0 801, firings_pollsEvery5_801,
   (randomized_interval_bound 1 TrafficLight.new 0 0 (pollsEvery5 0 801) (by decide)
      (by norm_num) (samples_pollsEvery5 0 801) (paced_pollsEvery5 0 801)).2.2.2.1⟩

end TrafficSim
